import Mathlib

/-! Verification development.
Verification of the `iolib` convenience layer: the BigQuery table manager
(identifier parsing, read checks, reconciling batch writes), the Drive
permission reconciler, and the Sheets writer, shallowly embedded from
`src/iolib/bigquery.py`, `src/iolib/drive.py` and `src/iolib/sheets.py`.
Remote vendor calls are modelled as events in a trace; client responses are
supplied by oracle functions.
-/

namespace Iolib

/-- The contiguous windows of `chunkSize` rows taken from `data`, in order:
the reference description of the slicing loop in
`BigqueryTableManager.write` (`data[index_from:index_to]` advancing by
`chunk_size` until an empty slice). -/
def chunksOf (chunkSize : Nat) (data : List α) : List (List α) :=
  if h : (data.take chunkSize).isEmpty then []
  else data.take chunkSize :: chunksOf chunkSize (data.drop chunkSize)
termination_by data.length
decreasing_by
  simp only [List.isEmpty_iff, List.take_eq_nil_iff] at h
  push_neg at h
  have hlen : data.length ≠ 0 := by
    intro h0
    exact h.2 (List.eq_nil_of_length_eq_zero h0)
  simp only [List.length_drop]
  omega

/-- Embedding of the indexable-iterable branch of
`BigqueryTableManager.write` (src/iolib/bigquery.py lines 291-303):
slice `data[index_from:index_to]`, break on an empty slice, submit the
window through the client (`oracle`), and raise the returned error payload
if it is non-empty, aborting the loop.  Returns the list of submitted
windows together with the raised payload, if any. -/
def insertRowsLoop (oracle : List α → List ε) (chunkSize : Nat)
    (data : List α) : List (List α) × Option (List ε) :=
  if h : (data.take chunkSize).isEmpty then ([], none)
  else
    let rows := data.take chunkSize
    let errors := oracle rows
    if errors.isEmpty then
      let rest := insertRowsLoop oracle chunkSize (data.drop chunkSize)
      (rows :: rest.1, rest.2)
    else
      ([rows], some errors)
termination_by data.length
decreasing_by
  simp only [List.isEmpty_iff, List.take_eq_nil_iff] at h
  push_neg at h
  have hlen : data.length ≠ 0 := by
    intro h0
    exact h.2 (List.eq_nil_of_length_eq_zero h0)
  simp only [List.length_drop]
  omega

theorem chunksOf_nil_iff (B : Nat) (data : List α) :
    chunksOf B data = [] ↔ (data.take B).isEmpty := by
  rw [chunksOf]
  by_cases h : (data.take B).isEmpty <;> simp [h]

theorem chunksOf_cons (B : Nat) (data : List α)
    (h : ¬ (data.take B).isEmpty) :
    chunksOf B data = data.take B :: chunksOf B (data.drop B) := by
  rw [chunksOf]
  simp [h]

theorem take_not_isEmpty (B : Nat) (data : List α) (hB : 0 < B)
    (hd : data ≠ []) : ¬ (data.take B).isEmpty := by
  simp only [List.isEmpty_iff, List.take_eq_nil_iff]
  push_neg
  exact ⟨by omega, hd⟩

theorem take_isEmpty_eq_nil (B : Nat) (data : List α) (hB : 0 < B)
    (h : (data.take B).isEmpty) : data = [] := by
  simp only [List.isEmpty_iff, List.take_eq_nil_iff] at h
  rcases h with h | h
  · omega
  · exact h

/-- The submitted windows reassemble to the input: the windows are
contiguous and in increasing index order. -/
theorem chunksOf_flatten (B : Nat) (hB : 0 < B) :
    ∀ data : List α, (chunksOf B data).flatten = data := by
  intro data
  induction data using chunksOf.induct B with
  | case1 data h =>
    rw [(chunksOf_nil_iff B data).mpr h]
    rw [take_isEmpty_eq_nil B data hB h]
    rfl
  | case2 data h ih =>
    rw [chunksOf_cons B data h]
    simp [List.flatten_cons, ih]

/-- The number of windows is `⌈data.length / B⌉`. -/
theorem chunksOf_length (B : Nat) (hB : 0 < B) :
    ∀ data : List α, (chunksOf B data).length = (data.length + B - 1) / B := by
  intro data
  induction data using chunksOf.induct B with
  | case1 data h =>
    rw [(chunksOf_nil_iff B data).mpr h]
    rw [take_isEmpty_eq_nil B data hB h]
    simp [Nat.div_eq_of_lt (by omega : B - 1 < B)]
  | case2 data h ih =>
    rw [chunksOf_cons B data h]
    have hd : data ≠ [] := by
      intro h0
      exact h (by simp [h0])
    have hL : 1 ≤ data.length := by
      cases data
      · exact absurd rfl hd
      · simp
    simp only [List.length_cons, ih, List.length_drop]
    rcases le_or_lt data.length B with hle | hlt
    · have h1 : data.length - B = 0 := by omega
      rw [h1]
      rw [Nat.div_eq_of_lt (by omega : 0 + B - 1 < B)]
      have h2 : data.length + B - 1 = (data.length - 1) + B := by omega
      rw [h2, Nat.add_div_right _ hB, Nat.div_eq_of_lt (by omega : data.length - 1 < B)]
    · have h2 : data.length + B - 1 = (data.length - 1) + B := by omega
      have h3 : data.length - B + B - 1 = (data.length - B - 1) + B := by omega
      have h4 : data.length - B - 1 + B = data.length - 1 := by omega
      rw [h2, h3, Nat.add_div_right _ hB, Nat.add_div_right _ hB, ← h4,
        Nat.add_div_right _ hB]

/-- Window `i` is `data[B*i : B*i + B]`. -/
theorem chunksOf_getElem (B : Nat) (hB : 0 < B) :
    ∀ (data : List α) (i : Nat) (h : i < (chunksOf B data).length),
      (chunksOf B data)[i] = (data.drop (B * i)).take B := by
  intro data
  induction data using chunksOf.induct B with
  | case1 data h =>
    intro i hi
    rw [(chunksOf_nil_iff B data).mpr h] at hi
    simp at hi
  | case2 data h ih =>
    intro i hi
    rcases i with _ | i
    · simp [chunksOf_cons B data h]
    · rw [chunksOf_cons B data h] at hi
      simp only [chunksOf_cons B data h, List.getElem_cons_succ]
      rw [ih i (by simpa using hi)]
      rw [List.drop_drop]
      congr 2
      ring

/-- Every window except possibly the last holds exactly `B` rows. -/
theorem chunksOf_full_window (B : Nat) (hB : 0 < B) :
    ∀ (data : List α) (i : Nat) (h : i < (chunksOf B data).length),
      i + 1 < (chunksOf B data).length → ((chunksOf B data)[i]).length = B := by
  intro data
  induction data using chunksOf.induct B with
  | case1 data h =>
    intro i hi
    rw [(chunksOf_nil_iff B data).mpr h] at hi
    simp at hi
  | case2 data h ih =>
    intro i hi hi1
    rcases i with _ | i
    · simp only [chunksOf_cons B data h, List.getElem_cons_zero]
      rw [chunksOf_cons B data h] at hi1
      have hrest : chunksOf B (data.drop B) ≠ [] := by
        intro h0
        rw [h0] at hi1
        simp at hi1
      have hd : data.drop B ≠ [] := by
        intro h0
        exact hrest ((chunksOf_nil_iff B _).mpr (by simp [h0]))
      have : B < data.length := by
        by_contra hc
        exact hd (List.drop_eq_nil_of_le (by omega))
      simp only [List.length_take]
      omega
    · rw [chunksOf_cons B data h] at hi1
      simp only [chunksOf_cons B data h, List.getElem_cons_succ]
      exact ih i (by simpa using Nat.lt_of_succ_lt hi1) (by simpa using hi1)

/-- The last window holds `data.length % B` rows when that is non-zero,
and exactly `B` rows otherwise. -/
theorem chunksOf_last_window (B : Nat) (hB : 0 < B) :
    ∀ (data : List α) (w : List α), (chunksOf B data).getLast? = some w →
      w.length = if data.length % B = 0 then B else data.length % B := by
  intro data
  induction data using chunksOf.induct B with
  | case1 data h =>
    intro w hw
    rw [(chunksOf_nil_iff B data).mpr h] at hw
    simp at hw
  | case2 data h ih =>
    intro w hw
    rw [chunksOf_cons B data h] at hw
    have hd : data ≠ [] := by
      intro h0
      exact h (by simp [h0])
    have hL : 1 ≤ data.length := List.length_pos.mpr hd
    by_cases hrest : chunksOf B (data.drop B) = []
    · rw [hrest, List.getLast?_singleton] at hw
      injection hw with hw
      subst hw
      have hdrop : data.drop B = [] :=
        take_isEmpty_eq_nil B _ hB ((chunksOf_nil_iff B _).mp hrest)
      have hle : data.length ≤ B := by
        by_contra hc
        have : (data.drop B).length = data.length - B := List.length_drop _ _
        rw [hdrop] at this
        simp at this
        omega
      simp only [List.length_take]
      rcases Nat.eq_or_lt_of_le hle with heq | hlt
      · rw [heq]
        simp [Nat.mod_self]
      · rw [if_neg (by rw [Nat.mod_eq_of_lt hlt]; omega), Nat.mod_eq_of_lt hlt]
        omega
    · have hw2 : (chunksOf B (data.drop B)).getLast? = some w := by
        obtain ⟨r, rs, hrr⟩ := List.exists_cons_of_ne_nil hrest
        rw [hrr] at hw ⊢
        rwa [List.getLast?_cons_cons] at hw
      have hw' := ih w hw2
      have hgt : B < data.length := by
        have hd' : data.drop B ≠ [] := by
          intro h0
          exact hrest ((chunksOf_nil_iff B _).mpr (by simp [h0]))
        by_contra hc
        exact hd' (List.drop_eq_nil_of_le (by omega))
      have hmod : (data.drop B).length % B = data.length % B := by
        rw [List.length_drop]
        conv_rhs => rw [show data.length = (data.length - B) + B by omega]
        rw [Nat.add_mod_right]
      rw [hmod] at hw'
      exact hw'

theorem insertRowsLoop_ok (oracle : List α → List ε) (B : Nat) :
    ∀ data : List α, (∀ w ∈ chunksOf B data, oracle w = []) →
      insertRowsLoop oracle B data = (chunksOf B data, none) := by
  intro data
  induction data using chunksOf.induct B with
  | case1 data h =>
    intro _
    rw [insertRowsLoop, (chunksOf_nil_iff B data).mpr h]
    simp [h]
  | case2 data h ih =>
    intro hok
    rw [chunksOf_cons B data h] at hok ⊢
    have h1 : oracle (data.take B) = [] := hok _ (by simp)
    have h2 := ih (fun w hw => hok w (by simp [hw]))
    rw [insertRowsLoop, dif_neg h]
    simp [h1, h2]

theorem insertRowsLoop_err (oracle : List α → List ε) (B : Nat) :
    ∀ (data : List α) (k : Nat) (hk : k < (chunksOf B data).length),
      (∀ j, j < k → oracle ((chunksOf B data)[j]!) = []) →
      oracle ((chunksOf B data)[k]) ≠ [] →
      insertRowsLoop oracle B data
        = ((chunksOf B data).take (k + 1), some (oracle ((chunksOf B data)[k]))) := by
  intro data
  induction data using chunksOf.induct B with
  | case1 data h =>
    intro k hk
    rw [(chunksOf_nil_iff B data).mpr h] at hk
    simp at hk
  | case2 data h ih =>
    intro k hk hok herr
    rcases k with _ | k
    · simp only [chunksOf_cons B data h, List.getElem_cons_zero] at herr ⊢
      rw [insertRowsLoop, dif_neg h]
      rw [if_neg (by simpa [List.isEmpty_iff] using herr)]
      simp
    · have h0 : oracle (data.take B) = [] := by
        have h00 := hok 0 (by omega)
        rw [chunksOf_cons B data h] at h00
        simpa using h00
      rw [chunksOf_cons B data h] at hk
      simp only [chunksOf_cons B data h, List.getElem_cons_succ] at herr ⊢
      rw [insertRowsLoop, dif_neg h]
      have hih := ih k (by simpa using hk) ?hok2 herr
      case hok2 =>
        intro j hj
        have hj1 := hok (j + 1) (by omega)
        rw [chunksOf_cons B data h] at hj1
        simpa using hj1
      simp [h0, hih]

/-- Claim C1.  Writing `N` rows with batch size `B > 0` through the
indexable-iterable branch of `BigqueryTableManager.write` submits exactly
the windows `chunksOf B data`: there are `⌈N/B⌉` of them, they reassemble
to the input in order (contiguous windows in strictly increasing index
order), every window except possibly the last holds exactly `B` rows, the
last holds `N % B` rows when `N % B ≠ 0`, and if the client reports errors
on some window the loop raises that payload immediately and submits no
later window. -/
theorem batched_write_windows (B : Nat) (data : List α)
    (oracle : List α → List ε) (hB : 0 < B) :
    (chunksOf B data).length = (data.length + B - 1) / B
    ∧ (chunksOf B data).flatten = data
    ∧ (∀ (i : Nat) (h : i < (chunksOf B data).length),
        i + 1 < (chunksOf B data).length → ((chunksOf B data)[i]).length = B)
    ∧ (∀ w, (chunksOf B data).getLast? = some w →
        w.length = if data.length % B = 0 then B else data.length % B)
    ∧ ((∀ w ∈ chunksOf B data, oracle w = []) →
        insertRowsLoop oracle B data = (chunksOf B data, none))
    ∧ (∀ (k : Nat) (hk : k < (chunksOf B data).length),
        (∀ j, j < k → oracle ((chunksOf B data)[j]!) = []) →
        oracle ((chunksOf B data)[k]) ≠ [] →
        insertRowsLoop oracle B data
          = ((chunksOf B data).take (k + 1),
             some (oracle ((chunksOf B data)[k])))) :=
  ⟨chunksOf_length B hB data,
   chunksOf_flatten B hB data,
   chunksOf_full_window B hB data,
   fun w => chunksOf_last_window B hB data w,
   insertRowsLoop_ok oracle B data,
   insertRowsLoop_err oracle B data⟩

/-- Witness for C1 at the spec's end-to-end example: five rows, batch size
three, two submissions of sizes three and two. -/
theorem batched_write_windows_witness :
    insertRowsLoop (fun _ => ([] : List String)) 3 [1, 2, 3, 4, 5]
      = (chunksOf 3 [1, 2, 3, 4, 5], none)
    ∧ chunksOf 3 [1, 2, 3, 4, 5] = [[1, 2, 3], [4, 5]] :=
  ⟨(batched_write_windows 3 [1, 2, 3, 4, 5] (fun _ => []) (by decide)).2.2.2.2.1
      (fun w _ => rfl),
   by simp [chunksOf]⟩

/-! Cell values and null normalization (bigquery.py lines 176 and 284). -/

/-- A tabular cell value.  `null` is Python's `None` (the wire null);
`nan` is `numpy.nan`, the library's canonical missing marker. -/
inductive Cell where
  | null
  | nan
  | str (s : String)
  | int (n : Int)
  deriving DecidableEq, Repr

/-- The map `.replace({np.nan: None})` applied on the write path
(`BigqueryTableManager.write`, line 284), per cell. -/
def writeNormalize : Cell → Cell
  | .nan => .null
  | c => c

/-- The map `.replace({None: np.nan})` applied on the read path
(`BigqueryTableManager.read`, line 176), per cell. -/
def readNormalize : Cell → Cell
  | .null => .nan
  | c => c

/-- Column-oriented dataframe: list of (column name, column values). -/
abbrev Dataframe := List (String × List Cell)

/-- Column selection `data[cols]`: select the named columns in `cols` order.  (pandas raises
`KeyError` on a missing column; here a missing column selects as empty,
a case no theorem relies on.) -/
def dfSelect (df : Dataframe) (cols : List String) : Dataframe :=
  cols.map fun c => (c, ((df.find? (fun p => p.1 == c)).map Prod.snd).getD [])

/-- Frame-wide write-path normalization `.replace({np.nan: None})`. -/
def dfWriteNormalize (df : Dataframe) : Dataframe :=
  df.map fun p => (p.1, p.2.map writeNormalize)

/-- Frame-wide read-path normalization `.replace({None: np.nan})`. -/
def dfReadNormalize (df : Dataframe) : Dataframe :=
  df.map fun p => (p.1, p.2.map readNormalize)

/-- Claim C8.  The write path maps the canonical missing marker (`nan`) to
the wire null (`null`), the read path maps the wire null back to the
canonical missing marker, and the composition on a missing value is the
identity: the marker round-trips. -/
theorem missing_value_round_trip :
    writeNormalize .nan = .null
    ∧ readNormalize .null = .nan
    ∧ readNormalize (writeNormalize .nan) = .nan :=
  ⟨rfl, rfl, rfl⟩

/-! The write reconciler (bigquery.py lines 255-303). -/

/-- The `if_exists` existence policy of `BigqueryTableManager.write`.
(The string assertion on line 255 makes any other value raise before
anything else happens; the enumeration renders the argument total.) -/
inductive IfExists where
  | fail
  | replace
  | append
  deriving DecidableEq, Repr

/-- A schema field (`google.cloud.bigquery.SchemaField`); only `name` is
consulted by the write path. -/
structure SchemaField where
  name : String
  fieldType : String
  mode : String
  description : String
  deriving DecidableEq, Repr

/-- The manager's resolved table handle: its schema and whether the table
exists remotely (`Table.created`). -/
structure TableHandle (σ : Type) where
  schema : σ
  created : Bool
  deriving DecidableEq, Repr

/-- Remote calls issued by `BigqueryTableManager.write`. -/
inductive BqEvent (σ α : Type) where
  | createTable (schema : σ)
  | deleteTable
  | insertRows (rows : List α)
  | insertDataframe (data : Dataframe)
  deriving DecidableEq, Repr

/-- Outcome of a write call. -/
inductive WriteOutcome (ε : Type) where
  | ok
  | alreadyExists
  | writeError (errors : List ε)
  deriving DecidableEq, Repr

/-- Lines 260-279 of `BigqueryTableManager.write`: the `if_exists`
transition applied before any row is transmitted.  `none` means the write
raises `ValueError` (policy `fail` on an existing table); otherwise the
remote calls issued so far are returned with the reconciled handle. -/
def reconcileTable (ifExists : IfExists) (table : TableHandle σ) :
    Option (List (BqEvent σ α) × TableHandle σ) :=
  match ifExists with
  | .fail =>
    if table.created then none
    else some ([.createTable table.schema], { table with created := true })
  | .replace =>
    if table.created then
      some ([.deleteTable, .createTable table.schema],
            { schema := table.schema, created := true })
    else some ([.createTable table.schema], { table with created := true })
  | .append =>
    if table.created then some ([], table)
    else some ([.createTable table.schema], { table with created := true })

/-- Full trace of `BigqueryTableManager.write` on an indexable iterable:
reconcile the destination per `if_exists`, then stream the windows through
`insertRowsLoop`. -/
def bqWriteRows (ifExists : IfExists) (table : TableHandle σ) (data : List α)
    (chunkSize : Nat) (oracle : List α → List ε) :
    List (BqEvent σ α) × WriteOutcome ε :=
  match reconcileTable ifExists table with
  | none => ([], .alreadyExists)
  | some (events, _) =>
    let result := insertRowsLoop oracle chunkSize data
    (events ++ result.1.map .insertRows,
     match result.2 with
     | none => .ok
     | some e => .writeError e)

/-- Lines 282-288 of `BigqueryTableManager.write` (the DataFrame branch):
project the schema's declared column names, normalize `np.nan` to `None`,
and hand the frame to `client.insert_rows_from_dataframe` in one call.
The returned payload is bound to `errors` and never consulted afterwards
in the source, so the branch always returns normally. -/
def bqWriteDataframe (ifExists : IfExists)
    (table : TableHandle (List SchemaField)) (df : Dataframe)
    (chunkSize : Nat) (oracle : Dataframe → List ε) :
    List (BqEvent (List SchemaField) α) × WriteOutcome ε :=
  match reconcileTable ifExists table with
  | none => ([], .alreadyExists)
  | some (events, tbl) =>
    let cols := tbl.schema.map (·.name)
    let data := dfWriteNormalize (dfSelect df cols)
    let errors := oracle data
    (events ++ [.insertDataframe data], .ok)

/-- Claim C4.  With policy `replace` on an existing table, the write
deletes the table, recreates it with the captured (identical) schema, and
only then transmits rows — the trace is delete, create(schema), then the
insert submissions; on a non-existing table it creates then writes.  Both
the indexable-iterable branch and the DataFrame branch share this
reconciliation prefix. -/
theorem replace_policy_trace (schema : σ) (data : List α) (chunkSize : Nat)
    (oracle : List α → List ε) (df : Dataframe)
    (schemaF : List SchemaField) (oracleDf : Dataframe → List ε) :
    bqWriteRows .replace ⟨schema, true⟩ data chunkSize oracle
      = (BqEvent.deleteTable :: BqEvent.createTable schema ::
          (insertRowsLoop oracle chunkSize data).1.map BqEvent.insertRows,
         match (insertRowsLoop oracle chunkSize data).2 with
         | none => .ok
         | some e => .writeError e)
    ∧ bqWriteRows .replace ⟨schema, false⟩ data chunkSize oracle
      = (BqEvent.createTable schema ::
          (insertRowsLoop oracle chunkSize data).1.map BqEvent.insertRows,
         match (insertRowsLoop oracle chunkSize data).2 with
         | none => .ok
         | some e => .writeError e)
    ∧ bqWriteDataframe (α := α) .replace ⟨schemaF, true⟩ df chunkSize oracleDf
      = ([BqEvent.deleteTable, BqEvent.createTable schemaF,
          BqEvent.insertDataframe
            (dfWriteNormalize (dfSelect df (schemaF.map (·.name))))], .ok) := by
  refine ⟨?_, ?_, ?_⟩ <;> simp [bqWriteRows, bqWriteDataframe, reconcileTable]

/-- Claim C3 (code bug).  Evaluating the DataFrame branch at a failing
input: the client call reports a non-empty error payload, yet the write
returns normally with outcome `ok` — the payload bound to `errors` is
never re-raised, unlike the indexable-iterable branch. -/
theorem dataframe_write_discards_error_payload :
    bqWriteDataframe (α := Unit) (ε := String) .append
        ⟨[⟨"x", "", "", ""⟩], true⟩ [("x", [Cell.int 1])] 1000
        (fun _ => ["An error from Bigquery"])
      = ([BqEvent.insertDataframe [("x", [Cell.int 1])]], .ok) := by
  rfl

/-! Identifier parsing (bigquery.py lines 72-79). -/

/-- Python `str.split('.')` over a character list: split at every dot,
keeping empty segments (CPython semantics for a one-character separator,
e.g. `"a.b" -> ["a","b"]`, `"" -> [""]`, `".." -> ["","",""]`). -/
def splitDot : List Char → List (List Char)
  | [] => [[]]
  | c :: cs =>
    match splitDot cs with
    | [] => [[]]
    | w :: ws => if c = '.' then [] :: w :: ws else (c :: w) :: ws

/-- The assertion message `f'Invalid table_id `{table}`'`. -/
def invalidTableMessage (table : List Char) : List Char :=
  "Invalid table_id `".toList ++ table ++ "`".toList

/-- Outcome of the table-string component extraction in
`BigqueryTableManager.__init__`. -/
inductive ParsedTable where
  | noDot (table : List Char)
  | two (dataset table : List Char)
  | three (project dataset table : List Char)
  | invalid (message : List Char)
  deriving DecidableEq, Repr

/-- Lines 72-79 of `BigqueryTableManager.__init__`: when the table argument
is a string containing a dot, split it on `.`; two parts rebind
(dataset, table), three parts rebind (project, dataset, table), and any
other count raises `AssertionError` with the original string in the
message.  A dot-free string leaves the branch untaken. -/
def parseTableString (table : List Char) : ParsedTable :=
  if '.' ∈ table then
    match splitDot table with
    | [d, t] => .two d t
    | [p, d, t] => .three p d t
    | _ => .invalid (invalidTableMessage table)
  else .noDot table

/-- Effective (project, dataset, table) components bound by
`BigqueryTableManager.__init__` for a string table argument, before any
remote lookup (lines 72-84): the split rebinds the local `dataset` (and,
for a three-part identifier, `project`), discarding the caller-supplied
arguments; `none` means the argument stays unset.  `none` result means the
constructor raises on the invalid identifier. -/
def initComponents (table : List Char)
    (dataset project : Option (List Char)) :
    Option (Option (List Char) × Option (List Char) × List Char) :=
  match parseTableString table with
  | .noDot t => some (project, dataset, t)
  | .two d t => some (project, some d, t)
  | .three p d t => some (some p, some d, t)
  | .invalid _ => none

/-- Claim C6 counterexample: for the dot-free identifier `"mytable"` the
split yields one part — neither 2 nor 3 — yet the parser raises nothing
(the split branch is only entered when the string contains a dot), so the
claim's "any other split count fails" is false as stated over every
identifier string. -/
theorem parser_no_dot_does_not_fail :
    (splitDot "mytable".toList).length = 1
    ∧ parseTableString "mytable".toList = .noDot "mytable".toList
    ∧ ∀ msg, parseTableString "mytable".toList ≠ .invalid msg := by
  refine ⟨by decide, by decide, ?_⟩
  intro msg h
  rw [show parseTableString "mytable".toList = .noDot "mytable".toList
    from by decide] at h
  exact ParsedTable.noConfusion h

/-- Claim C6 (amended).  For identifier strings that contain a dot, the
parser splits on `.`: a two-part split yields (dataset, resource) with
project unset, a three-part split yields (project, dataset, resource), and
any other split count (necessarily four or more parts) fails with an error
whose message contains the original string.  A dot-free string is not
parsed and is used as a bare table name. -/
theorem parser_split_spec (s : List Char) (hdot : '.' ∈ s) :
    (∀ d t, splitDot s = [d, t] → parseTableString s = .two d t)
    ∧ (∀ p d t, splitDot s = [p, d, t] → parseTableString s = .three p d t)
    ∧ ((splitDot s).length ≠ 2 → (splitDot s).length ≠ 3 →
        parseTableString s = .invalid (invalidTableMessage s)
        ∧ ∃ pre post, invalidTableMessage s = pre ++ s ++ post) := by
  refine ⟨?_, ?_, ?_⟩
  · intro d t hs
    simp [parseTableString, hdot, hs]
  · intro p d t hs
    simp [parseTableString, hdot, hs]
  · intro h2 h3
    refine ⟨?_, "Invalid table_id `".toList, "`".toList, rfl⟩
    rcases hs : splitDot s with _ | ⟨a, _ | ⟨b, _ | ⟨c, _ | ds⟩⟩⟩ <;>
      simp [hs] at h2 h3 ⊢ <;>
      simp [parseTableString, hdot, hs]

/-- Witness for C6 at the spec's two-part example. -/
theorem parser_split_spec_witness :
    parseTableString "ds.tbl".toList = .two "ds".toList "tbl".toList :=
  (parser_split_spec "ds.tbl".toList (by decide)).1 _ _ (by decide)

/-- Claim C9.  When the table argument is a string containing a dot, the
dataset component parsed from the string silently replaces any explicitly
passed dataset argument and, for a three-part identifier, the parsed
project replaces any explicitly passed project argument: the bound
components are independent of the caller-supplied values. -/
theorem string_table_overrides_arguments (s : List Char)
    (dataset project : Option (List Char)) :
    (∀ d t, '.' ∈ s → splitDot s = [d, t] →
      initComponents s dataset project = some (project, some d, t))
    ∧ (∀ p d t, '.' ∈ s → splitDot s = [p, d, t] →
      initComponents s dataset project = some (some p, some d, t)) := by
  constructor
  · intro d t hdot hs
    rw [initComponents, (parser_split_spec s hdot).1 d t hs]
  · intro p d t hdot hs
    rw [initComponents, (parser_split_spec s hdot).2.1 p d t hs]

/-- Witness for C9: the parsed dataset `ds` replaces the explicitly passed
`otherds`, while the passed project survives in the two-part form. -/
theorem string_table_overrides_arguments_witness :
    initComponents "ds.tbl".toList (some "otherds".toList)
        (some "proj".toList)
      = some (some "proj".toList, some "ds".toList, "tbl".toList) :=
  (string_table_overrides_arguments "ds.tbl".toList (some "otherds".toList)
      (some "proj".toList)).1 "ds".toList "tbl".toList (by decide) (by decide)

/-! Read-path checks (bigquery.py read lines 167-174, iread 209-216). -/

/-- The manager state consulted by the read checks: whether a table handle
is resolved (`some created-flag`), and the identifiers used in the
not-found message (`client.project`, `dataset.dataset_id`,
`table.table_id`). -/
structure ReadManager where
  tableCreated : Option Bool
  project : List Char
  datasetId : List Char
  tableId : List Char
  deriving DecidableEq, Repr

/-- Errors raised by the read checks: the missing-query
`AssertionError`, and the standardized `NotFound` raised by
`_raise_table_not_found` with its `{message, domain, reason}` descriptor. -/
inductive ReadError where
  | assertionError (message : List Char)
  | notFound (message domain reason : List Char)
  deriving DecidableEq, Repr

/-- The message built by `_raise_table_not_found` (lines 125-131):
`f'Not found: Table {project}:{dataset_id}.{table_id}'`. -/
def notFoundMessage (m : ReadManager) : List Char :=
  "Not found: Table ".toList ++ m.project ++ ":".toList ++ m.datasetId
    ++ ".".toList ++ m.tableId

/-- The validation prefix of `BigqueryTableManager.read` (lines 167-172):
assert a table or a query is present, then raise not-found when the
resolved table is not created. -/
def readValidate (m : ReadManager) (query : Option (List Char)) :
    Option ReadError :=
  if m.tableCreated.isNone ∧ query.isNone then
    some (.assertionError
      "query is required when reading when no table is passed".toList)
  else
    match m.tableCreated with
    | some false =>
      some (.notFound (notFoundMessage m) "global".toList "notFound".toList)
    | _ => none

/-- The validation prefix of `BigqueryTableManager.iread` (lines 209-214):
identical to `readValidate` except for the assertion message, which says
`ireading` instead of `reading`. -/
def ireadValidate (m : ReadManager) (query : Option (List Char)) :
    Option ReadError :=
  if m.tableCreated.isNone ∧ query.isNone then
    some (.assertionError
      "query is required when ireading when no table is passed".toList)
  else
    match m.tableCreated with
    | some false =>
      some (.notFound (notFoundMessage m) "global".toList "notFound".toList)
    | _ => none

/-- Because `iread` is a generator function (its body contains `yield`): calling it
only constructs the generator, so the body — and with it `ireadValidate` —
runs when the first row is pulled.  The thunk is that deferred body,
restricted to its validation prefix. -/
def ireadGenerator (m : ReadManager) (query : Option (List Char)) :
    Unit → Option ReadError :=
  fun _ => ireadValidate m query

/-- Claim C7 counterexample: with no resolved table and no query the eager
read and the streaming read raise assertion errors with different messages
(`reading` vs `ireading`), so the streaming variant does not raise exactly
the same errors as the eager read. -/
theorem iread_missing_query_message_differs :
    readValidate ⟨none, [], [], []⟩ none
      = some (.assertionError
          "query is required when reading when no table is passed".toList)
    ∧ ireadValidate ⟨none, [], [], []⟩ none
      = some (.assertionError
          "query is required when ireading when no table is passed".toList)
    ∧ readValidate ⟨none, [], [], []⟩ none
      ≠ ireadValidate ⟨none, [], [], []⟩ none := by
  refine ⟨by decide, by decide, by decide⟩

/-- Claim C7 (amended).  The streaming read defers its checks to first
consumption (the generator thunk evaluates `ireadValidate`, and calling
`iread` merely builds the thunk), and those checks coincide with the eager
read's: one fails exactly when the other does, the table-not-found error is
identical (same message and same `{message, domain, reason}` descriptor),
and the missing-query failure is the same assertion except that its
message says `ireading` in place of `reading`. -/
theorem iread_checks_match_read (m : ReadManager)
    (query : Option (List Char)) :
    (ireadGenerator m query () = ireadValidate m query)
    ∧ ((ireadValidate m query).isSome ↔ (readValidate m query).isSome)
    ∧ (∀ msg d r, readValidate m query = some (.notFound msg d r) →
        ireadValidate m query = some (.notFound msg d r))
    ∧ (m.tableCreated.isNone → query.isNone →
        ireadValidate m query
          = some (.assertionError
              "query is required when ireading when no table is passed".toList)) := by
  obtain ⟨tc, p, d, t⟩ := m
  refine ⟨rfl, ?_, ?_, ?_⟩
  · rcases tc with _ | b
    · cases query <;> simp [ireadValidate, readValidate]
    · cases b <;> cases query <;> simp [ireadValidate, readValidate]
  · intro msg dd r hr
    rcases tc with _ | b
    · cases query <;> simp_all [ireadValidate, readValidate]
    · cases b <;> cases query <;> simp_all [ireadValidate, readValidate]
  · intro h1 h2
    rcases tc with _ | b
    · rcases query with _ | q
      · rfl
      · simp at h2
    · simp at h1

/-- Witness for C7 on a resolved-but-not-created table: both paths produce
the identical not-found error. -/
theorem iread_checks_match_read_witness :
    ireadValidate ⟨some false, "p".toList, "d".toList, "t".toList⟩ none
      = some (.notFound
          (notFoundMessage ⟨some false, "p".toList, "d".toList, "t".toList⟩)
          "global".toList "notFound".toList) :=
  (iread_checks_match_read ⟨some false, "p".toList, "d".toList, "t".toList⟩
      none).2.2.1 _ _ _ (by decide)

/-! Drive permission reconciliation (drive.py). -/

/-- A current permission row as returned by `DrivePermissions.list`
(fields id, type, email, role). -/
structure PermRecord where
  id : String
  type : String
  email : String
  role : String
  deriving DecidableEq, Repr

/-- A desired permission as passed to `set_drive_permissions`: a dict of
string keys, `none` standing for Python `None` values. -/
abbrev PermDict := List (String × Option String)

/-- The comprehension `{k: v for k, v in permission.items() if v is not None}` (line 273). -/
def stripNone (p : PermDict) : List (String × String) :=
  p.filterMap fun kv => kv.2.map (fun v => (kv.1, v))

/-- Python set equality of two key lists. -/
def sameKeySet (ks target : List String) : Bool :=
  ks.all (fun k => target.contains k) && target.all (fun k => ks.contains k)

/-- The assertion on lines 275-276:
`keys in ({'email', 'role'}, {'email', 'role', 'type'})`. -/
def validPermKeys (ks : List String) : Bool :=
  sameKeySet ks ["email", "role"] || sameKeySet ks ["email", "role", "type"]

/-- Permission types accepted by `DrivePermissions._validate_type`. -/
def validTypes : List String := ["user", "group", "domain", "anyone"]

/-- Permission roles accepted by `DrivePermissions._validate_role`:
`owner` is never settable through this path. -/
def validRoles : List String := ["writer", "commenter", "reader"]

/-- Remote permission calls issued by `set_drive_permissions`. -/
inductive DriveEvent where
  | listPerms
  | create (email type role : String)
  | update (permId role : String)
  | delete (permId : String)
  deriving DecidableEq, Repr

/-- A validation failure raised by the permission sync; a run that raises
none of these returns normally. -/
inductive DriveErr where
  | invalidMode (mode : String)
  | invalidKeys
  | invalidType (type : String)
  | invalidRole (role : String)
  deriving DecidableEq, Repr

/-- Method `DrivePermissions.create` (lines 123-152): validate type then role,
then issue the remote create call. -/
def permCreate (email type role : String) :
    Except DriveErr DriveEvent :=
  if ¬ validTypes.contains type then .error (.invalidType type)
  else if ¬ validRoles.contains role then .error (.invalidRole role)
  else .ok (.create email type role)

/-- Method `DrivePermissions.update` (lines 154-179): validate the role, then
issue the remote update call. -/
def permUpdate (permId role : String) : Except DriveErr DriveEvent :=
  if ¬ validRoles.contains role then .error (.invalidRole role)
  else .ok (.update permId role)

/-- Insert into an email-keyed dict: an existing key keeps its position and
takes the new value, a new key appends (CPython dict semantics). -/
def dictInsert (m : List PermRecord) (c : PermRecord) : List PermRecord :=
  if m.any (fun x => x.email == c.email) then
    m.map fun x => if x.email == c.email then c else x
  else m ++ [c]

/-- The map `manager.list(item_id).set_index('email').to_dict('index')`
(lines 267-271): the current permissions keyed by email. -/
def buildPermMap (current : List PermRecord) : List PermRecord :=
  current.foldl dictInsert []

/-- Dict removal `current_permissions_map.pop(permission['email'], None)`: the looked-up
record, and the map without that email. -/
def mapPop (m : List PermRecord) (email : String) :
    Option PermRecord × List PermRecord :=
  (m.find? (fun x => x.email == email),
   m.filter (fun x => x.email != email))

/-- One iteration of the desired-permission loop in
`set_drive_permissions` (lines 272-284): strip `None` values, assert the
key set, pop the current permission for the email, and create (absent) or
update (different role) as needed.  Returns the remote calls issued by the
iteration and the updated map. -/
def processPermission (m : List PermRecord) (p : PermDict) :
    Except DriveErr (List DriveEvent × List PermRecord) :=
  let permission := stripNone p
  let keys := permission.map Prod.fst
  if validPermKeys keys then
    let email := (permission.lookup "email").getD ""
    let role := (permission.lookup "role").getD ""
    let pop := mapPop m email
    match pop.1 with
    | none =>
      match permCreate email ((permission.lookup "type").getD "user") role with
      | .error e => .error e
      | .ok ev => .ok ([ev], pop.2)
    | some current =>
      if current.role != role then
        match permUpdate current.id role with
        | .error e => .error e
        | .ok ev => .ok ([ev], pop.2)
      else .ok ([], pop.2)
  else .error .invalidKeys

/-- The desired-permission loop: the remote calls issued, the remaining
map, and the raised failure, if any (a failure aborts the loop with no
further calls). -/
def processPermissions :
    List PermRecord → List PermDict →
      List DriveEvent × List PermRecord × Option DriveErr
  | m, [] => ([], m, none)
  | m, p :: ps =>
    match processPermission m p with
    | .error e => ([], m, some e)
    | .ok (evs, m1) =>
      let r := processPermissions m1 ps
      (evs ++ r.1, r.2.1, r.2.2)

/-- Function `set_drive_permissions` (drive.py lines 234-288): validate the mode,
fetch the current permissions into an email-keyed map (the remote list
call), process each desired permission in order, and in `replace` mode
delete every remaining permission whose role is not `owner`.  Returns the
ordered trace of remote calls and the raised failure, if any
(`none` means the call returned normally). -/
def setDrivePermissions (mode : String) (permissions : List PermDict)
    (current : List PermRecord) : List DriveEvent × Option DriveErr :=
  if mode = "update" ∨ mode = "replace" then
    let r := processPermissions (buildPermMap current) permissions
    match r.2.2 with
    | some e => (DriveEvent.listPerms :: r.1, some e)
    | none =>
      if mode = "replace" then
        (DriveEvent.listPerms :: r.1
          ++ ((r.2.1.filter (fun c => c.role != "owner")).map
              (fun c => DriveEvent.delete c.id)),
         none)
      else (DriveEvent.listPerms :: r.1, none)
  else ([], some (.invalidMode mode))

/-- The permission id of a delete call, if the event is one. -/
def deleteId : DriveEvent → Option String
  | .delete pid => some pid
  | _ => none

/-- The email of each desired permission, in order (after `None`
stripping, as the loop reads it). -/
def emailsOf (permissions : List PermDict) : List String :=
  permissions.map fun p => ((stripNone p).lookup "email").getD ""

theorem permCreate_ok (email type role : String) (ev : DriveEvent)
    (h : permCreate email type role = .ok ev) :
    ev = .create email type role := by
  unfold permCreate at h
  split at h
  · exact Except.noConfusion h
  · split at h
    · exact Except.noConfusion h
    · injection h with h
      exact h.symm

theorem permUpdate_ok (permId role : String) (ev : DriveEvent)
    (h : permUpdate permId role = .ok ev) : ev = .update permId role := by
  unfold permUpdate at h
  split at h
  · exact Except.noConfusion h
  · injection h with h
    exact h.symm

theorem processPermission_spec (m : List PermRecord) (p : PermDict)
    (evs : List DriveEvent) (m1 : List PermRecord)
    (h : processPermission m p = .ok (evs, m1)) :
    m1 = m.filter
      (fun c => c.email != ((stripNone p).lookup "email").getD "")
    ∧ ∀ pid, DriveEvent.delete pid ∉ evs := by
  by_cases hk : validPermKeys ((stripNone p).map Prod.fst) = true
  · rcases hf : m.find?
        (fun x => x.email == ((stripNone p).lookup "email").getD "")
      with _ | c
    · rcases hc : permCreate (((stripNone p).lookup "email").getD "")
          (((stripNone p).lookup "type").getD "user")
          (((stripNone p).lookup "role").getD "") with e | ev
      · simp [processPermission, mapPop, hk, hf, hc] at h
      · simp [processPermission, mapPop, hk, hf, hc] at h
        refine ⟨h.2.symm, ?_⟩
        rw [← h.1, permCreate_ok _ _ _ _ hc]
        intro pid
        simp
    · by_cases hr :
          (c.role != ((stripNone p).lookup "role").getD "") = true
      · rcases hu : permUpdate c.id (((stripNone p).lookup "role").getD "")
          with e | ev
        · simp [processPermission, mapPop, hk, hf, hr, hu] at h
        · simp [processPermission, mapPop, hk, hf, hr, hu] at h
          refine ⟨h.2.symm, ?_⟩
          rw [← h.1, permUpdate_ok _ _ _ hu]
          intro pid
          simp
      · simp [processPermission, mapPop, hk, hf, hr] at h
        refine ⟨h.2.symm, ?_⟩
        rw [h.1]
        intro pid
        simp
  · simp [processPermission, hk] at h

theorem processPermissions_no_delete (ps : List PermDict) :
    ∀ (m : List PermRecord) (pid : String),
      DriveEvent.delete pid ∉ (processPermissions m ps).1 := by
  induction ps with
  | nil =>
    intro m pid
    simp [processPermissions]
  | cons p ps ih =>
    intro m pid
    rcases hp : processPermission m p with e | r
    · simp [processPermissions, hp]
    · obtain ⟨evs, m1⟩ := r
      have hspec := processPermission_spec m p evs m1 hp
      simp only [processPermissions, hp]
      intro hmem
      rcases List.mem_append.mp hmem with hmem | hmem
      · exact hspec.2 pid hmem
      · exact ih m1 pid hmem

theorem processPermissions_map (ps : List PermDict) :
    ∀ m : List PermRecord, (processPermissions m ps).2.2 = none →
      (processPermissions m ps).2.1
        = m.filter (fun c => !(emailsOf ps).contains c.email) := by
  induction ps with
  | nil =>
    intro m _
    simp [processPermissions, emailsOf]
  | cons p ps ih =>
    intro m herr
    rcases hp : processPermission m p with e | r
    · simp [processPermissions, hp] at herr
    · obtain ⟨evs, m1⟩ := r
      have hspec := processPermission_spec m p evs m1 hp
      simp only [processPermissions, hp] at herr ⊢
      rw [ih m1 herr, hspec.1, List.filter_filter]
      apply List.filter_congr
      intro c _
      simp only [emailsOf, List.map_cons, List.contains_cons, Bool.not_or]
      rw [Bool.and_comm]
      rfl

/-- Claim C5.  In `update` mode the permission sync never issues a delete
call, even when a validation failure aborts the run.  In `replace` mode,
when the run returns normally, the deleted permission ids are exactly
those of the email-keyed current permissions whose email is absent from
the desired set and whose role is not `owner`, in map order.  And in no
mode and for no input is a permission with role `owner` deleted: every
delete call targets a non-owner entry of the current map. -/
theorem permission_sync_delete_spec (mode : String)
    (permissions : List PermDict) (current : List PermRecord) :
    (∀ pid, DriveEvent.delete pid ∉
        (setDrivePermissions "update" permissions current).1)
    ∧ ((setDrivePermissions "replace" permissions current).2 = none →
        (setDrivePermissions "replace" permissions current).1.filterMap
            deleteId
          = (((buildPermMap current).filter
                (fun c => !(emailsOf permissions).contains c.email)).filter
              (fun c => c.role != "owner")).map (fun c => c.id))
    ∧ (∀ pid, DriveEvent.delete pid ∈
          (setDrivePermissions mode permissions current).1 →
        ∃ c, c ∈ buildPermMap current ∧ c.id = pid ∧ c.role ≠ "owner") := by
  have hnd := processPermissions_no_delete permissions (buildPermMap current)
  refine ⟨?_, ?_, ?_⟩
  · intro pid
    rw [setDrivePermissions]
    rw [if_pos (Or.inl rfl)]
    rcases herr : (processPermissions (buildPermMap current) permissions).2.2
      with _ | e
    · simp only [herr]
      rw [if_neg (by decide)]
      intro hmem
      rcases List.mem_cons.mp hmem with hmem | hmem
      · exact DriveEvent.noConfusion hmem
      · exact hnd pid hmem
    · simp only [herr]
      intro hmem
      rcases List.mem_cons.mp hmem with hmem | hmem
      · exact DriveEvent.noConfusion hmem
      · exact hnd pid hmem
  · intro hok
    rw [setDrivePermissions, if_pos (Or.inr rfl)] at hok ⊢
    rcases herr : (processPermissions (buildPermMap current) permissions).2.2
      with _ | e
    · simp only [herr] at hok ⊢
      rw [if_pos trivial]
      rw [processPermissions_map permissions (buildPermMap current) herr]
      have h1 : ∀ ev ∈ (processPermissions (buildPermMap current)
          permissions).1, deleteId ev = none := by
        intro ev hev
        cases ev with
        | delete pid => exact absurd hev (hnd pid)
        | listPerms => rfl
        | create a b c => rfl
        | update a b => rfl
      simp only [List.cons_append, List.filterMap_cons, deleteId,
        List.filterMap_append]
      rw [List.filterMap_eq_nil_iff.mpr h1]
      simp only [List.nil_append]
      rw [List.filterMap_map]
      have h2 : (deleteId ∘ fun c : PermRecord => DriveEvent.delete c.id)
          = fun c : PermRecord => some c.id := rfl
      rw [h2]
      show List.filterMap (some ∘ fun c : PermRecord => c.id) _ = _
      rw [List.filterMap_eq_map]
    · simp only [herr] at hok
      exact Option.noConfusion hok
  · intro pid hmem
    by_cases hm : mode = "update" ∨ mode = "replace"
    · rw [setDrivePermissions, if_pos hm] at hmem
      rcases herr : (processPermissions (buildPermMap current)
          permissions).2.2 with _ | e
      · simp only [herr] at hmem
        by_cases hrep : mode = "replace"
        · rw [if_pos hrep] at hmem
          rcases List.mem_cons.mp hmem with hmem | hmem
          · exact DriveEvent.noConfusion hmem
          · rcases List.mem_append.mp hmem with hmem | hmem
            · exact absurd hmem (hnd pid)
            · rcases List.mem_map.mp hmem with ⟨c, hc, hcid⟩
              have hc2 := List.mem_filter.mp hc
              refine ⟨c, ?_, ?_, ?_⟩
              · have hc3 : c ∈ (processPermissions (buildPermMap current)
                    permissions).2.1 := hc2.1
                rw [processPermissions_map permissions _ herr] at hc3
                exact (List.mem_filter.mp hc3).1
              · injection hcid.symm with h
                exact h.symm
              · intro hrole
                have := hc2.2
                rw [hrole] at this
                simp at this
        · rw [if_neg hrep] at hmem
          rcases List.mem_cons.mp hmem with hmem | hmem
          · exact DriveEvent.noConfusion hmem
          · exact absurd hmem (hnd pid)
      · simp only [herr] at hmem
        rcases List.mem_cons.mp hmem with hmem | hmem
        · exact DriveEvent.noConfusion hmem
        · exact absurd hmem (hnd pid)
    · rw [setDrivePermissions, if_neg hm] at hmem
      exact absurd hmem (List.not_mem_nil _)

/-- Witness for C5 at the spec's end-to-end example: desired reader for
`a@x.com` against current writer `a@x.com` and owner `b@x.com`, in
`replace` mode — the run returns normally and deletes nothing, because the
only current permission absent from the desired set is the owner's. -/
theorem permission_sync_delete_spec_witness :
    (setDrivePermissions "replace"
        [[("email", some "a@x.com"), ("role", some "reader")]]
        [⟨"p1", "user", "a@x.com", "writer"⟩,
         ⟨"p2", "user", "b@x.com", "owner"⟩]).1.filterMap deleteId
      = [] := by
  have h := (permission_sync_delete_spec "replace"
      [[("email", some "a@x.com"), ("role", some "reader")]]
      [⟨"p1", "user", "a@x.com", "writer"⟩,
       ⟨"p2", "user", "b@x.com", "owner"⟩]).2.1 (by decide)
  rw [h]
  decide

/-- Claim C10.  In both modes, a desired permission whose email matches a
current permission with role `owner` is updated when the desired role
differs (the owner protection applies only to delete calls): the sync
issues an update call on that owner permission's id.  When the desired
role equals the current role — here `owner` — no create, update or delete
call is issued for that email. -/
theorem owner_permission_update (mode : String) (current : List PermRecord)
    (email role : String) (c : PermRecord)
    (hmode : mode = "update" ∨ mode = "replace")
    (hfind : (buildPermMap current).find? (fun x => x.email == email)
      = some c)
    (howner : c.role = "owner") :
    (role ∈ validRoles →
      setDrivePermissions mode
          [[("email", some email), ("role", some role)]] current
        = (DriveEvent.listPerms :: DriveEvent.update c.id role ::
            (if mode = "replace" then
              (((buildPermMap current).filter
                  (fun x => x.email != email)).filter
                (fun x => x.role != "owner")).map
                  (fun x => DriveEvent.delete x.id)
            else []),
           none))
    ∧ (setDrivePermissions mode
          [[("email", some email), ("role", some "owner")]] current
        = (DriveEvent.listPerms ::
            (if mode = "replace" then
              (((buildPermMap current).filter
                  (fun x => x.email != email)).filter
                (fun x => x.role != "owner")).map
                  (fun x => DriveEvent.delete x.id)
            else []),
           none)) := by
  constructor
  · intro hrole
    have hrole' : role = "writer" ∨ role = "commenter" ∨ role = "reader" := by
      simpa [validRoles] using hrole
    have hne : (c.role != role) = true := by
      rw [howner]
      rcases hrole' with rfl | rfl | rfl <;> rfl
    have hcont : validRoles.contains role = true := by
      rcases hrole' with rfl | rfl | rfl <;> rfl
    have hstep : processPermission (buildPermMap current)
        [("email", some email), ("role", some role)]
        = .ok ([DriveEvent.update c.id role],
               (buildPermMap current).filter (fun x => x.email != email)) := by
      simp [processPermission, stripNone, mapPop, List.lookup, validPermKeys,
        sameKeySet, permUpdate, hfind, hne, hcont, hrole]
    rcases hmode with rfl | rfl
    · simp [setDrivePermissions, processPermissions, hstep]
    · simp [setDrivePermissions, processPermissions, hstep]
  · have hne2 : (c.role != "owner") = false := by
      rw [howner]
      rfl
    have hstep : processPermission (buildPermMap current)
        [("email", some email), ("role", some "owner")]
        = .ok ([], (buildPermMap current).filter (fun x => x.email != email)) := by
      simp [processPermission, stripNone, mapPop, List.lookup, validPermKeys,
        sameKeySet, hfind, hne2]
    rcases hmode with rfl | rfl
    · simp [setDrivePermissions, processPermissions, hstep]
    · simp [setDrivePermissions, processPermissions, hstep]

/-- Witness for C10: the owner `a@x.com` is updated to reader in `update`
mode, and no delete is issued. -/
theorem owner_permission_update_witness :
    setDrivePermissions "update"
        [[("email", some "a@x.com"), ("role", some "reader")]]
        [⟨"p1", "user", "a@x.com", "owner"⟩]
      = ([DriveEvent.listPerms, DriveEvent.update "p1" "reader"], none) := by
  have h := (owner_permission_update "update"
      [⟨"p1", "user", "a@x.com", "owner"⟩] "a@x.com" "reader"
      ⟨"p1", "user", "a@x.com", "owner"⟩ (Or.inl rfl) (by decide) rfl).1
      (by decide)
  simpa using h

/-! Sheets writer (sheets.py write_sheets, lines 77-168). -/

/-- Remote calls issued by `write_sheets`. -/
inductive SheetsEvent where
  | listFiles (name : String)
  | deleteFile (fileId : String)
  | createFile (name : String)
  | updateValues (nRows nCols : Nat)
  deriving DecidableEq, Repr

/-- A failure raised by `write_sheets`; `none` outcome means the call
returned the new spreadsheet id. -/
inductive SheetsErr where
  | invalidIfExists (ifExists : String)
  | multipleFound (name : String)
  | alreadyExists
  | tooManyColumns (nCols : Nat)
  deriving DecidableEq, Repr

/-- The tail of `write_sheets` from the `files().create` call on (lines
139-168): create the spreadsheet, generate the range (the column check,
raising `AssertionError` with the actual column count), then populate it
in one `values().update` call.  The cell serialization applied after the
check is not consulted by any claim and is kept abstract: the update event
records the populated shape (row count includes the header row). -/
def writeSheetsCreate (name : String) (nRows nCols : Nat) (newId : String) :
    List SheetsEvent × Except SheetsErr String :=
  if ¬ (nCols ≤ 26) then
    ([SheetsEvent.createFile name], .error (.tooManyColumns nCols))
  else
    ([SheetsEvent.createFile name,
      SheetsEvent.updateValues (nRows + 1) nCols], .ok newId)

/-- Function `write_sheets` (sheets.py lines 77-168): validate `if_exists`, look the
name up in Drive (the remote list call), fail on multiple matches, fail on
`if_exists='fail'` with a match, delete the match under `replace`, then
create and populate a fresh spreadsheet.  `existing` is the id column of
the lookup result; `newId` the id Drive assigns to the created file.
Returns the ordered trace of remote calls and the outcome. -/
def writeSheets (ifExists name : String) (nRows nCols : Nat)
    (existing : List String) (newId : String) :
    List SheetsEvent × Except SheetsErr String :=
  if ¬ (ifExists = "fail" ∨ ifExists = "replace") then
    ([], .error (.invalidIfExists ifExists))
  else
    match existing with
    | [] =>
      let r := writeSheetsCreate name nRows nCols newId
      (SheetsEvent.listFiles name :: r.1, r.2)
    | [fid] =>
      if ifExists = "fail" then
        ([SheetsEvent.listFiles name], .error .alreadyExists)
      else
        let r := writeSheetsCreate name nRows nCols newId
        (SheetsEvent.listFiles name :: SheetsEvent.deleteFile fid :: r.1, r.2)
    | _ => ([SheetsEvent.listFiles name], .error (.multipleFound name))

/-- Claim C2 counterexample (the claim as stated is false): writing a
30-column table issues the remote lookup and the remote create call before
the too-many-columns failure is raised, and a desired permission with an
invalid key set is rejected only after the remote permission-list call —
so not every input-validation failure precedes every remote call. -/
theorem late_validation_counterexample :
    writeSheets "fail" "report" 2 30 [] "id1"
      = ([SheetsEvent.listFiles "report", SheetsEvent.createFile "report"],
         .error (.tooManyColumns 30))
    ∧ setDrivePermissions "update" [[("emails", some "a@x.com")]] []
      = ([DriveEvent.listPerms], some .invalidKeys) := by
  constructor
  · rfl
  · rfl

/-- Claim C2 (amended).  The enum validations are raised before any remote
call: an invalid `if_exists` or an invalid mode yields an empty trace.
The other validations fire at their places in the flow: the 26-column
check (carrying the actual column count) only after the remote lookup and
the remote create call, and the permission-keys check only after the
remote permission listing — each still before any subsequent remote call
of its own operation (no update-values call, no create/update call for the
offending entry). -/
theorem validation_order (ifExists mode name newId : String)
    (nRows nCols : Nat) (existing : List String)
    (permissions : List PermDict) (current : List PermRecord) :
    (¬ (ifExists = "fail" ∨ ifExists = "replace") →
      writeSheets ifExists name nRows nCols existing newId
        = ([], .error (.invalidIfExists ifExists)))
    ∧ (¬ (mode = "update" ∨ mode = "replace") →
      setDrivePermissions mode permissions current
        = ([], some (.invalidMode mode)))
    ∧ (26 < nCols →
      writeSheets "fail" name nRows nCols [] newId
        = ([SheetsEvent.listFiles name, SheetsEvent.createFile name],
           .error (.tooManyColumns nCols)))
    ∧ (∀ p ps, ¬ validPermKeys ((stripNone p).map Prod.fst) = true →
        setDrivePermissions "update" (p :: ps) current
          = ([DriveEvent.listPerms], some .invalidKeys)) := by
  refine ⟨?_, ?_, ?_, ?_⟩
  · intro h
    rcases existing with _ | ⟨fid, rest⟩
    · simp [writeSheets, h]
    · rcases rest with _ | ⟨fid2, rest2⟩ <;> simp [writeSheets, h]
  · intro h
    rw [setDrivePermissions, if_neg h]
  · intro h
    simp only [writeSheets]
    rw [if_neg (by simp)]
    simp only [writeSheetsCreate]
    rw [if_pos (by omega)]
  · intro p ps hk
    have hp : processPermission (buildPermMap current) p
        = .error .invalidKeys := by
      simp [processPermission, hk]
    rw [setDrivePermissions, if_pos (Or.inl rfl)]
    simp [processPermissions, hp]

/-- Witness for C2's amended claim at a 30-column table. -/
theorem validation_order_witness :
    writeSheets "fail" "report" 0 30 [] "id9"
      = ([SheetsEvent.listFiles "report", SheetsEvent.createFile "report"],
         .error (.tooManyColumns 30)) :=
  (validation_order "fail" "update" "report" "id9" 0 30 [] [] []).2.2.1
    (by omega)
